import Mathlib

/-!
Verification development for the cita-logger crate (src/lib.rs).

Rust strings are modelled as `List Char`.  Rust's `str::split(c)` and
`str::trim` are modelled by `splitOnChar` and `trimChars` below; `trimChars`
restricts to the ASCII whitespace characters, which is faithful for every
input considered here (Rust additionally trims rare Unicode whitespace).
Side effects (the advisory `println!` warnings of `parse_env`, the `warn!`
of the rotation loop) are made explicit as lists of emitted messages.
-/

namespace CitaLogger

/-- The `log` crate's `LevelFilter` enum. -/
inductive LevelFilter where
  | Off
  | Error
  | Warn
  | Info
  | Debug
  | Trace
deriving DecidableEq, Repr

/-- `struct Directive` of src/lib.rs: a module name together with a log level. -/
structure Directive where
  name : List Char
  level : LevelFilter
deriving DecidableEq, Repr

/-- Rust `char::to_ascii_lowercase`. -/
def asciiLower (c : Char) : Char :=
  if 'A' ≤ c ∧ c ≤ 'Z' then Char.ofNat (c.toNat + 32) else c

/-- ASCII whitespace, the fragment of Rust `char::is_whitespace` relevant here. -/
def isWhitespaceChar (c : Char) : Bool :=
  c = ' ' || c = '\t' || c = '\n' || c = '\r'

/-- Rust `str::trim` (restricted to ASCII whitespace): drop whitespace from
both ends. -/
def trimChars (s : List Char) : List Char :=
  ((s.dropWhile isWhitespaceChar).reverse.dropWhile isWhitespaceChar).reverse

/-- Rust `str::split(sep)`: split at every occurrence of `sep`; the result is
never empty, and empty fields are kept (`"".split(c)` yields one empty field,
`"a==b".split('=')` yields `["a", "", "b"]`). -/
def splitOnChar (sep : Char) : List Char → List (List Char)
  | [] => [[]]
  | c :: rest =>
    if c = sep then
      [] :: splitOnChar sep rest
    else
      match splitOnChar sep rest with
      | [] => [[c]]
      | g :: gs => (c :: g) :: gs

/-- `LevelFilter::from_str` of the `log` crate: case-insensitive (ASCII) match
against the six level names `off, error, warn, info, debug, trace`. -/
def LevelFilter.from_str (s : List Char) : Option LevelFilter :=
  if s.map asciiLower = "off".toList then some .Off
  else if s.map asciiLower = "error".toList then some .Error
  else if s.map asciiLower = "warn".toList then some .Warn
  else if s.map asciiLower = "info".toList then some .Info
  else if s.map asciiLower = "debug".toList then some .Debug
  else if s.map asciiLower = "trace".toList then some .Trace
  else none

/-- Uppercase level names, as printed by `LevelFilter`'s `Display` impl. -/
def LevelFilter.displayName : LevelFilter → List Char
  | .Off => "OFF".toList
  | .Error => "ERROR".toList
  | .Warn => "WARN".toList
  | .Info => "INFO".toList
  | .Debug => "DEBUG".toList
  | .Trace => "TRACE".toList

/-- Outcome of processing one comma-separated entry of the spec string:
either nothing happens, a directive is pushed, or a warning is printed and
the entry is skipped. -/
inductive EntryResult where
  | skip
  | keep (d : Directive)
  | warnSkip (msg : List Char)
deriving DecidableEq, Repr

/-- The `println!` message of the bare-level case of `parse_env`. -/
def warnBareLevel (num : LevelFilter) : List Char :=
  "warning: log level \x27".toList ++ num.displayName ++
    "\x27 need explicit crate or module name.".toList

/-- The `println!` message of the invalid-spec cases of `parse_env`. -/
def warnInvalidSpec (s : List Char) : List Char :=
  "warning: invalid logging spec \x27".toList ++ s ++ "\x27, ignoring it".toList

/-- The final `if !name.is_empty() { directives.push(..) }` of the loop body:
a directive is pushed unless the (untrimmed) name is literally empty. -/
def pushDirective (name : List Char) (level : LevelFilter) : EntryResult :=
  if name = [] then .skip else .keep ⟨name, level⟩

/-- One iteration of the `for s in env.split(',')` loop of `parse_env`:
empty entries are skipped; otherwise the entry is split on `=` and matched
exactly as the Rust `match (parts.next(), parts.next().map(str::trim),
parts.next())` does (only the second field is trimmed). -/
def parse_entry (s : List Char) : EntryResult :=
  if s = [] then .skip
  else
    match splitOnChar '=' s with
    | [part0] =>
      match LevelFilter.from_str part0 with
      | some num => .warnSkip (warnBareLevel num)
      | none => pushDirective part0 .Info
    | [part0, part1raw] =>
      let part1 := trimChars part1raw
      if part1 = [] then pushDirective part0 .Info
      else
        match LevelFilter.from_str part1 with
        | some num => pushDirective part0 num
        | none => .warnSkip (warnInvalidSpec part1)
    | _ => .warnSkip (warnInvalidSpec s)

/-- Folding the loop over the list of entries, collecting pushed directives
and printed warnings in order. -/
def parse_entries : List (List Char) → List Directive × List (List Char)
  | [] => ([], [])
  | s :: rest =>
    let acc := parse_entries rest
    match parse_entry s with
    | .skip => acc
    | .keep d => (d :: acc.1, acc.2)
    | .warnSkip w => (acc.1, w :: acc.2)

/-- `parse_env` of src/lib.rs, together with the warnings it prints. -/
def parse_env_out (env : List Char) : List Directive × List (List Char) :=
  parse_entries (splitOnChar ',' env)

/-- `parse_env` of src/lib.rs: the directives returned. -/
def parse_env (env : List Char) : List Directive :=
  (parse_env_out env).1

/-- The kind of a log4rs appender built by this crate: a console appender or a
file appender, each with its pattern-encoder string. -/
inductive AppenderKind where
  | console (pattern : List Char)
  | file (path : List Char) (pattern : List Char)
deriving DecidableEq, Repr

/-- A named log4rs appender as registered on the `Config` builder. -/
structure Appender where
  name : List Char
  kind : AppenderKind
deriving DecidableEq, Repr

/-- A log4rs per-module `Logger`: scope name, level, additivity flag and the
appenders attached to it. -/
structure Logger where
  name : List Char
  level : LevelFilter
  additive : Bool
  appenders : List (List Char)
deriving DecidableEq, Repr

/-- The log4rs `Root` handler: fallback level and its appenders. -/
structure Root where
  level : LevelFilter
  appenders : List (List Char)
deriving DecidableEq, Repr

/-- A built log4rs `Config`: the named appenders, the per-module loggers and
the root handler. -/
structure Config where
  appenders : List Appender
  loggers : List Logger
  root : Root
deriving DecidableEq, Repr

/-- `create_loggers` of src/lib.rs: one non-additive logger per directive,
scoped to the directive's module name at the directive's level, attached to
the named appender; empty directive list short-circuits to no loggers. -/
def create_loggers (directives : List Directive) (appender : List Char) :
    List Logger :=
  if directives = [] then []
  else directives.map fun directive =>
    ⟨directive.name, directive.level, false, [appender]⟩

/-- The pattern-encoder string of `config_file_appender` (braces escaped). -/
def filePattern : List Char :=
  "\x7bd(%Y-%m-%d - %H:%M:%S)\x7d | \x7bt:20.20\x7d - \x7bL:5\x7d | \x7bl:5\x7d - \x7bm\x7d\x7bn\x7d".toList

/-- `config_file_appender` of src/lib.rs: one file appender named
`requests` at `file_path`, the per-directive loggers routed to it, and a root
at level Info attached to it. -/
def config_file_appender (file_path : List Char) (directives : List Directive) :
    Config :=
  let requests : Appender := ⟨"requests".toList, .file file_path filePattern⟩
  let loggers := create_loggers directives "requests".toList
  -- The builder adds `loggers` only when nonempty; adding none leaves the
  -- logger list empty, so the net logger list is `loggers` either way.
  ⟨[requests], loggers, ⟨.Info, ["requests".toList]⟩⟩

/-- The pattern-encoder string of `config_console_appender`: the service name
prefix followed by the fixed pattern (braces escaped). -/
def consolePattern (service_name : List Char) : List Char :=
  "[".toList ++ service_name ++ "]: ".toList ++
    "\x7bd\x7d - \x7bl\x7d - \x7bm\x7d\x7bn\x7d".toList

/-- `config_console_appender` of src/lib.rs: one console appender named
`stdout`, the per-directive loggers routed to it, and a root at level Info
attached to it. -/
def config_console_appender (service_name : List Char)
    (directives : List Directive) : Config :=
  let stdout : Appender := ⟨"stdout".toList, .console (consolePattern service_name)⟩
  let loggers := create_loggers directives "stdout".toList
  ⟨[stdout], loggers, ⟨.Info, ["stdout".toList]⟩⟩

/-- The configuration installed by `silent` of src/lib.rs: no appenders, no
loggers, root at level Off. -/
def silentConfig : Config :=
  ⟨[], [], ⟨.Off, []⟩⟩

/-- `enum LogFavour` of src/lib.rs. -/
inductive LogFavour where
  | Stdout (service_name : List Char)
  | File (service_name : List Char)
deriving DecidableEq, Repr

/-- The live log file path `logs/<service_name>.log` built by `init_config`
for the file favour. -/
def log_name (service_name : List Char) : List Char :=
  "logs/".toList ++ service_name ++ ".log".toList

/-- The directives `init_config` parses from the `RUST_LOG` environment
variable: absent variable means no directives. -/
def env_directives (rust_log : Option (List Char)) : List Directive :=
  match rust_log with
  | some s => parse_env s
  | none => []

/-- A call into the one-shot initialization slot guarded by `INIT_LOG`:
either `init_config(favour)` or `silent()`. -/
inductive InitCall where
  | init_config (favour : LogFavour)
  | silent
deriving DecidableEq, Repr

/-- The configuration the body of the given call builds and installs, as a
function of the `RUST_LOG` value read at that moment. -/
def built_config (rust_log : Option (List Char)) : InitCall → Config
  | .init_config (.Stdout service_name) =>
      config_console_appender service_name (env_directives rust_log)
  | .init_config (.File service_name) =>
      config_file_appender (log_name service_name) (env_directives rust_log)
  | .silent => silentConfig

/-- Process-wide logging state: the installed configuration, `none` before
any initializer has run.  `INIT_LOG: Once` is modelled by this option: the
body of `call_once` runs only while it is `none`. -/
structure ProcessState where
  installed : Option Config
deriving DecidableEq, Repr

/-- `INIT_LOG.call_once` semantics for either initializer: when nothing is
installed yet, build and install the caller's configuration (the returned
flag records that the body ran); otherwise return without effect. -/
def call_once (rust_log : Option (List Char)) (st : ProcessState)
    (c : InitCall) : ProcessState × Bool :=
  match st.installed with
  | some _ => (st, false)
  | none => (⟨some (built_config rust_log c)⟩, true)

/-- Run a sequence of initialization calls (in the serialization order the
`Once` enforces) from the given state, counting how many bodies ran. -/
def run_calls (rust_log : Option (List Char)) :
    ProcessState × Nat → List InitCall → ProcessState × Nat
  | acc, [] => acc
  | (st, n), c :: cs =>
    let r := call_once rust_log st c
    run_calls rust_log (r.1, n + (if r.2 then 1 else 0)) cs

/-- Decimal digits of `n`, zero-padded on the left to width `w` (chrono's
zero-padded numeric formatting). -/
def padDecimal (w : Nat) (n : Nat) : List Char :=
  let ds := Nat.toDigits 10 n
  List.replicate (w - ds.length) '0' ++ ds

/-- A local wall-clock instant, as chrono's `Local::now()` provides. -/
structure LocalTime where
  year : Nat
  month : Nat
  day : Nat
  hour : Nat
  minute : Nat
  second : Nat
deriving DecidableEq, Repr

/-- chrono formatting of `"_%Y-%m-%d_%H-%M-%S"`: underscore, zero-padded
4-digit year, dash, 2-digit month, dash, 2-digit day, underscore, 2-digit
hour, dash, 2-digit minute, dash, 2-digit second. -/
def time_stamp (t : LocalTime) : List Char :=
  "_".toList ++ padDecimal 4 t.year ++ "-".toList ++ padDecimal 2 t.month ++
    "-".toList ++ padDecimal 2 t.day ++ "_".toList ++ padDecimal 2 t.hour ++
    "-".toList ++ padDecimal 2 t.minute ++ "-".toList ++ padDecimal 2 t.second

/-- The rename target `logs/<service_name><time_stamp>.log` built by the
rotation loop of `init_config` on a trigger at local time `t`. -/
def log_rotate_name (service_name : List Char) (t : LocalTime) : List Char :=
  "logs/".toList ++ service_name ++ time_stamp t ++ ".log".toList

/-- Result of the `fs::rename` attempt of one rotation trigger. -/
inductive RenameOutcome where
  | ok
  | err (kind : List Char)
deriving DecidableEq, Repr

/-- State visible to the rotation waiter: the live configuration handle and
the warnings logged so far. -/
structure RotState where
  config : Config
  warnings : List (List Char)
deriving DecidableEq, Repr

/-- The `warn!` message logged when a rotation rename fails with error kind
`e` (Debug-formatted by the source). -/
def logrotateWarning (e : List Char) : List Char :=
  "logrotate failed because of ".toList ++ e

/-- One iteration of the rotation loop body after a trigger is received:
on rename failure, log the warning and `continue` (no configuration is built
or installed); on success, rebuild `config_file_appender` at the fixed live
path with the startup directives and install it via `handle.set_config`. -/
def rotation_step (service_name : List Char) (directives : List Directive)
    (st : RotState) : RenameOutcome → RotState
  | .err e => ⟨st.config, st.warnings ++ [logrotateWarning e]⟩
  | .ok => ⟨config_file_appender (log_name service_name) directives, st.warnings⟩

/-- The rotation waiter processing a sequence of trigger outcomes in arrival
order; the loop itself never exits. -/
def rotation_run (service_name : List Char) (directives : List Directive)
    (st : RotState) : List RenameOutcome → RotState
  | [] => st
  | o :: rest =>
    rotation_run service_name directives (rotation_step service_name directives st o) rest

/-! Helper lemmas about the string model. -/

lemma splitOnChar_no_sep (sep : Char) (s : List Char) (h : sep ∉ s) :
    splitOnChar sep s = [s] := by
  induction s with
  | nil => rfl
  | cons x xs ih =>
    have hx : ¬ (x = sep) := fun he => h (by simp [he])
    have ih' := ih (fun hm => h (List.mem_cons_of_mem _ hm))
    simp [splitOnChar, hx, ih']

lemma splitOnChar_append_sep (sep : Char) (a b : List Char) (ha : sep ∉ a) :
    splitOnChar sep (a ++ sep :: b) = a :: splitOnChar sep b := by
  induction a with
  | nil => simp [splitOnChar]
  | cons x xs ih =>
    have hx : ¬ (x = sep) := fun he => ha (by simp [he])
    have ih' := ih (fun hm => ha (List.mem_cons_of_mem _ hm))
    simp only [List.cons_append, splitOnChar, hx, if_false]
    rw [List.append_eq, ih']

lemma splitOnChar_pair (sep : Char) (a b : List Char) (ha : sep ∉ a)
    (hb : sep ∉ b) : splitOnChar sep (a ++ sep :: b) = [a, b] := by
  rw [splitOnChar_append_sep sep a b ha, splitOnChar_no_sep sep b hb]

lemma from_str_map_cases (w : List Char) (lv : LevelFilter)
    (h : LevelFilter.from_str w = some lv) :
    w.map asciiLower = "off".toList ∨ w.map asciiLower = "error".toList ∨
    w.map asciiLower = "warn".toList ∨ w.map asciiLower = "info".toList ∨
    w.map asciiLower = "debug".toList ∨ w.map asciiLower = "trace".toList := by
  unfold LevelFilter.from_str at h
  split_ifs at h <;> tauto

/-- Every character of a string accepted by `LevelFilter.from_str` is an
ASCII letter; in particular it is not whitespace, not `=` and not `,`. -/
lemma level_word_char (w : List Char) (lv : LevelFilter) (c : Char)
    (h : LevelFilter.from_str w = some lv) (hc : c ∈ w) :
    isWhitespaceChar c = false ∧ ¬ (c = '=') ∧ ¬ (c = ',') := by
  have hm : asciiLower c ∈ w.map asciiLower := List.mem_map_of_mem _ hc
  have hcases := from_str_map_cases w lv h
  refine ⟨?_, ?_, ?_⟩
  · cases hw : isWhitespaceChar c with
    | false => rfl
    | true =>
      exfalso
      have hd : c = ' ' ∨ c = '\t' ∨ c = '\n' ∨ c = '\r' := by
        simpa [isWhitespaceChar, or_assoc] using hw
      rcases hd with rfl | rfl | rfl | rfl <;>
        rcases hcases with he | he | he | he | he | he <;> rw [he] at hm <;>
        revert hm <;> decide
  · rintro rfl
    rcases hcases with he | he | he | he | he | he <;> rw [he] at hm <;>
      revert hm <;> decide
  · rintro rfl
    rcases hcases with he | he | he | he | he | he <;> rw [he] at hm <;>
      revert hm <;> decide

lemma level_word_ne_nil (w : List Char) (lv : LevelFilter)
    (h : LevelFilter.from_str w = some lv) : w ≠ [] := by
  rintro rfl
  rw [show LevelFilter.from_str ([] : List Char) = none from by decide] at h
  exact Option.noConfusion h

lemma dropWhile_append_all (p : Char → Bool) (a b : List Char)
    (h : ∀ c ∈ a, p c = true) :
    (a ++ b).dropWhile p = b.dropWhile p := by
  induction a with
  | nil => rfl
  | cons x xs ih =>
    simp [List.dropWhile, h x (by simp), ih (fun c hc => h c (by simp [hc]))]

lemma dropWhile_cons_neg (p : Char → Bool) (c : Char) (l : List Char)
    (h : p c = false) : (c :: l).dropWhile p = c :: l := by
  simp [List.dropWhile, h]

/-- `trimChars` strips exactly the whitespace padding around a nonempty
whitespace-free core. -/
lemma trimChars_pad (pre w suf : List Char)
    (hpre : ∀ c ∈ pre, isWhitespaceChar c = true)
    (hsuf : ∀ c ∈ suf, isWhitespaceChar c = true)
    (hw : ∀ c ∈ w, isWhitespaceChar c = false) (hne : w ≠ []) :
    trimChars (pre ++ w ++ suf) = w := by
  unfold trimChars
  rw [List.append_assoc, dropWhile_append_all _ pre _ hpre]
  cases w with
  | nil => exact absurd rfl hne
  | cons x xs =>
    rw [List.cons_append, dropWhile_cons_neg _ _ _ (hw x (by simp)),
      ← List.cons_append, List.reverse_append,
      dropWhile_append_all _ suf.reverse _
        (fun c hc => hsuf c (List.mem_reverse.mp hc))]
    cases hr : (x :: xs).reverse with
    | nil => simp at hr
    | cons y ys =>
      have hy : y ∈ x :: xs := by
        rw [← List.mem_reverse, hr]
        simp
      rw [dropWhile_cons_neg _ _ _ (hw y hy), ← hr, List.reverse_reverse]

lemma trimChars_of_no_ws (w : List Char)
    (hw : ∀ c ∈ w, isWhitespaceChar c = false) : trimChars w = w := by
  cases hn : w with
  | nil => rfl
  | cons x xs =>
    have := trimChars_pad [] (x :: xs) [] (by simp) (by simp)
      (fun c hc => hw c (hn ▸ hc)) (by simp)
    simpa using this

/-- Parsing a spec that contains no comma processes it as one entry. -/
lemma parse_env_out_single (s : List Char) (h : ',' ∉ s) :
    parse_env_out s =
      match parse_entry s with
      | .skip => ([], [])
      | .keep d => ([d], [])
      | .warnSkip w => ([], [w]) := by
  unfold parse_env_out
  rw [splitOnChar_no_sep ',' s h]
  cases hp : parse_entry s <;> simp [parse_entries, hp]

lemma parse_entry_one_field (s : List Char) (hne : s ≠ []) (h : '=' ∉ s) :
    parse_entry s =
      (match LevelFilter.from_str s with
       | some num => .warnSkip (warnBareLevel num)
       | none => pushDirective s .Info) := by
  unfold parse_entry
  rw [if_neg hne, splitOnChar_no_sep '=' s h]

lemma parse_entry_two_field (p0 p1 : List Char) (h0 : '=' ∉ p0)
    (h1 : '=' ∉ p1) :
    parse_entry (p0 ++ '=' :: p1) =
      (if trimChars p1 = [] then pushDirective p0 .Info
       else
         match LevelFilter.from_str (trimChars p1) with
         | some num => pushDirective p0 num
         | none => .warnSkip (warnInvalidSpec (trimChars p1))) := by
  have hne : p0 ++ '=' :: p1 ≠ [] := by simp
  unfold parse_entry
  rw [if_neg hne, splitOnChar_pair '=' p0 p1 h0 h1]

lemma level_word_no_eq (w : List Char) (lv : LevelFilter)
    (h : LevelFilter.from_str w = some lv) : '=' ∉ w :=
  fun hc => (level_word_char w lv _ h hc).2.1 rfl

lemma level_word_no_comma (w : List Char) (lv : LevelFilter)
    (h : LevelFilter.from_str w = some lv) : ',' ∉ w :=
  fun hc => (level_word_char w lv _ h hc).2.2 rfl

lemma level_word_no_ws (w : List Char) (lv : LevelFilter)
    (h : LevelFilter.from_str w = some lv) :
    ∀ c ∈ w, isWhitespaceChar c = false :=
  fun c hc => (level_word_char w lv c h hc).1

lemma level_word_trim (w : List Char) (lv : LevelFilter)
    (h : LevelFilter.from_str w = some lv) : trimChars w = w :=
  trimChars_of_no_ws w (level_word_no_ws w lv h)

/-! The claims. -/

/-- Claim C1: for every non-empty module name `mod` (containing no `=` or `,`)
that does not itself parse as a level name, and every level word that
case-insensitively equals one of off, error, warn, info, debug, trace,
parsing the single-entry spec `mod=level` yields exactly one directive whose
name equals `mod` and whose level is the corresponding `LevelFilter`. -/
theorem C1_valid_single_entry (mod w : List Char) (lv : LevelFilter)
    (hmod_ne : mod ≠ []) (hmod_eq : '=' ∉ mod) (hmod_comma : ',' ∉ mod)
    (hmod_level : LevelFilter.from_str mod = none)
    (hw : LevelFilter.from_str w = some lv) :
    parse_env (mod ++ '=' :: w) = [⟨mod, lv⟩] := by
  have hwe : '=' ∉ w := level_word_no_eq w lv hw
  have hwc : ',' ∉ w := level_word_no_comma w lv hw
  have hcomma : ',' ∉ mod ++ '=' :: w := by
    intro hm
    rcases List.mem_append.mp hm with h | h
    · exact hmod_comma h
    · rcases List.mem_cons.mp h with h | h
      · exact absurd h (by decide)
      · exact hwc h
  unfold parse_env
  rw [parse_env_out_single _ hcomma, parse_entry_two_field mod w hmod_eq hwe,
    level_word_trim w lv hw, if_neg (level_word_ne_nil w lv hw), hw]
  simp [pushDirective, hmod_ne]

/-- Witness for C1 at a concrete module name and a mixed-case level word. -/
theorem C1_valid_single_entry_witness :
    parse_env ("my_module".toList ++ '=' :: "DeBuG".toList) =
      [⟨"my_module".toList, .Debug⟩] :=
  C1_valid_single_entry "my_module".toList "DeBuG".toList .Debug (by decide)
    (by decide) (by decide) (by decide) (by decide)

/-- Claim C7: a single-field entry that does not parse as a level name becomes
a directive with that field as module name and implicit level Info; the spec
`crate1::mod1,crate1::mod2=debug,crate2=trace` yields exactly the three
directives (crate1::mod1, Info), (crate1::mod2, Debug), (crate2, Trace) in
that order. -/
theorem C7_single_field_default_info :
    (∀ s : List Char, s ≠ [] → '=' ∉ s → ',' ∉ s →
        LevelFilter.from_str s = none → parse_env s = [⟨s, .Info⟩]) ∧
    parse_env "crate1::mod1,crate1::mod2=debug,crate2=trace".toList =
      [⟨"crate1::mod1".toList, .Info⟩, ⟨"crate1::mod2".toList, .Debug⟩,
       ⟨"crate2".toList, .Trace⟩] := by
  constructor
  · intro s hne heq hcomma hnone
    unfold parse_env
    rw [parse_env_out_single s hcomma, parse_entry_one_field s hne heq, hnone]
    simp [pushDirective, hne]
  · decide

/-- Witness for the universally quantified part of C7. -/
theorem C7_single_field_default_info_witness :
    parse_env "crate9".toList = [⟨"crate9".toList, .Info⟩] :=
  C7_single_field_default_info.1 "crate9".toList (by decide) (by decide)
    (by decide) (by decide)

/-- Claim C8: every entry that splits on `=` into three or more fields is
skipped with a warning and contributes no directive; the spec
`crate1::mod=warn=info,crate2=warn` yields exactly the directive
(crate2, Warn), with one warning printed for the malformed entry. -/
theorem C8_malformed_entry_skipped :
    (∀ s : List Char, 3 ≤ (splitOnChar '=' s).length →
        parse_entry s = .warnSkip (warnInvalidSpec s)) ∧
    parse_env_out "crate1::mod=warn=info,crate2=warn".toList =
      ([⟨"crate2".toList, .Warn⟩],
       [warnInvalidSpec "crate1::mod=warn=info".toList]) := by
  constructor
  · intro s h
    have hne : s ≠ [] := by
      rintro rfl
      rw [show splitOnChar '=' [] = [[]] from rfl] at h
      simp at h
    unfold parse_entry
    rw [if_neg hne]
    rcases hps : splitOnChar '=' s with _ | ⟨p0, _ | ⟨p1, _ | ⟨p2, rest⟩⟩⟩
    · rfl
    · rw [hps] at h
      simp at h
    · rw [hps] at h
      simp at h
    · rfl
  · decide

/-- Witness for the universally quantified part of C8. -/
theorem C8_malformed_entry_skipped_witness :
    parse_entry "a=b=c".toList = .warnSkip (warnInvalidSpec "a=b=c".toList) :=
  C8_malformed_entry_skipped.1 "a=b=c".toList (by decide)

/-- Claim C9: every two-field entry whose trimmed second field is nonempty
and does not parse (case-insensitively) as a level name is skipped with a
warning and contributes no directive; the spec `crate1::mod=wrong,crate2=error`
yields exactly the directive (crate2, Error). -/
theorem C9_invalid_level_skipped :
    (∀ p0 p1 : List Char, '=' ∉ p0 → '=' ∉ p1 → trimChars p1 ≠ [] →
        LevelFilter.from_str (trimChars p1) = none →
        parse_entry (p0 ++ '=' :: p1) =
          .warnSkip (warnInvalidSpec (trimChars p1))) ∧
    parse_env "crate1::mod=wrong,crate2=error".toList =
      [⟨"crate2".toList, .Error⟩] := by
  constructor
  · intro p0 p1 h0 h1 hnt hnone
    rw [parse_entry_two_field p0 p1 h0 h1, if_neg hnt, hnone]
  · decide

/-- Witness for the universally quantified part of C9. -/
theorem C9_invalid_level_skipped_witness :
    parse_entry ("crate1::mod".toList ++ '=' :: "wrong".toList) =
      .warnSkip (warnInvalidSpec "wrong".toList) := by
  have h := C9_invalid_level_skipped.1 "crate1::mod".toList "wrong".toList
    (by decide) (by decide) (by decide) (by decide)
  rw [h]
  decide

/-- Claim C4, counterexample: the entry `"   "` (whitespace only) has a module
name that trims to empty, yet `parse_env` does emit a directive for it — the
emptiness check `!name.is_empty()` is applied to the untrimmed first field,
so the whitespace-only name is kept with level Info. -/
theorem C4_counterexample :
    trimChars "   ".toList = [] ∧
    parse_env "   ".toList = [⟨"   ".toList, .Info⟩] := by decide

/-- Claim C4 as amended: an entry whose module name field is literally empty
(e.g. `=trace`, or `=` followed by blanks) is dropped with no directive and no
warning, provided its level field is blank or a valid level name; the name is
not trimmed first, so a whitespace-only entry is instead kept as a directive. -/
theorem C4_empty_name_dropped (w : List Char) (hcomma : ',' ∉ w)
    (heq : '=' ∉ w)
    (h : trimChars w = [] ∨
      ∃ lv, LevelFilter.from_str (trimChars w) = some lv) :
    parse_env_out ('=' :: w) = ([], []) := by
  have hcomma' : ',' ∉ '=' :: w := by
    intro hm
    rcases List.mem_cons.mp hm with h' | h'
    · exact absurd h' (by decide)
    · exact hcomma h'
  rw [parse_env_out_single _ hcomma']
  have htwo := parse_entry_two_field [] w (by simp) heq
  simp only [List.nil_append] at htwo
  rw [htwo]
  rcases h with ht | ⟨lv, hlv⟩
  · rw [if_pos ht]
    simp [pushDirective]
  · rw [if_neg (level_word_ne_nil _ lv hlv), hlv]
    simp [pushDirective]

/-- Witness for the amended C4 at the entry `=trace`. -/
theorem C4_empty_name_dropped_witness :
    parse_env_out ('=' :: "trace".toList) = ([], []) :=
  C4_empty_name_dropped "trace".toList (by decide) (by decide)
    (Or.inr ⟨.Trace, by decide⟩)

/-- Claim C10: in a two-field entry only the second field is trimmed before
interpretation: `m=  L  ` yields (m, L) for a valid level word L, `m=   `
yields (m, Info), and the first field is never trimmed, so surrounding
whitespace stays part of the stored module name (`"  mm  =info"` stores the
name `"  mm  "`). -/
theorem C10_only_second_field_trimmed :
    (∀ (m w : List Char) (lv : LevelFilter), m ≠ [] → '=' ∉ m → ',' ∉ m →
        LevelFilter.from_str w = some lv →
        parse_env (m ++ '=' :: ("  ".toList ++ w ++ "  ".toList)) =
          [⟨m, lv⟩]) ∧
    (∀ m : List Char, m ≠ [] → '=' ∉ m → ',' ∉ m →
        parse_env (m ++ '=' :: "   ".toList) = [⟨m, .Info⟩]) ∧
    parse_env "  mm  =info".toList = [⟨"  mm  ".toList, .Info⟩] := by
  refine ⟨?_, ?_, by decide⟩
  · intro m w lv hm_ne hm_eq hm_comma hw
    have hp1_eq : '=' ∉ "  ".toList ++ w ++ "  ".toList := by
      intro hm
      rcases List.mem_append.mp hm with h' | h'
      · rcases List.mem_append.mp h' with h'' | h''
        · exact absurd h'' (by decide)
        · exact level_word_no_eq w lv hw h''
      · exact absurd h' (by decide)
    have hcomma : ',' ∉ m ++ '=' :: ("  ".toList ++ w ++ "  ".toList) := by
      intro hm
      rcases List.mem_append.mp hm with h' | h'
      · exact hm_comma h'
      · rcases List.mem_cons.mp h' with h' | h'
        · exact absurd h' (by decide)
        · rcases List.mem_append.mp h' with h'' | h''
          · rcases List.mem_append.mp h'' with h3 | h3
            · exact absurd h3 (by decide)
            · exact level_word_no_comma w lv hw h3
          · exact absurd h'' (by decide)
    have htrim : trimChars ("  ".toList ++ w ++ "  ".toList) = w :=
      trimChars_pad "  ".toList w "  ".toList (by decide) (by decide)
        (level_word_no_ws w lv hw) (level_word_ne_nil w lv hw)
    unfold parse_env
    rw [parse_env_out_single _ hcomma, parse_entry_two_field m _ hm_eq hp1_eq,
      htrim, if_neg (level_word_ne_nil w lv hw), hw]
    simp [pushDirective, hm_ne]
  · intro m hm_ne hm_eq hm_comma
    have hcomma : ',' ∉ m ++ '=' :: "   ".toList := by
      intro hm
      rcases List.mem_append.mp hm with h' | h'
      · exact hm_comma h'
      · rcases List.mem_cons.mp h' with h' | h'
        · exact absurd h' (by decide)
        · exact absurd h' (by decide)
    unfold parse_env
    rw [parse_env_out_single _ hcomma,
      parse_entry_two_field m _ hm_eq (by decide), if_pos (by decide)]
    simp [pushDirective, hm_ne]

/-- Witness for C10 at a concrete module name and level word. -/
theorem C10_only_second_field_trimmed_witness :
    parse_env ("ab".toList ++ '=' :: ("  ".toList ++ "TRACE".toList ++
        "  ".toList)) = [⟨"ab".toList, .Trace⟩] ∧
    parse_env ("ab".toList ++ '=' :: "   ".toList) = [⟨"ab".toList, .Info⟩] :=
  ⟨C10_only_second_field_trimmed.1 "ab".toList "TRACE".toList .Trace
      (by decide) (by decide) (by decide) (by decide),
   C10_only_second_field_trimmed.2.1 "ab".toList (by decide) (by decide)
      (by decide)⟩

lemma run_calls_installed (rust_log : Option (List Char)) (cfg : Config)
    (n : Nat) (cs : List InitCall) :
    run_calls rust_log (⟨some cfg⟩, n) cs = (⟨some cfg⟩, n) := by
  induction cs with
  | nil => rfl
  | cons c cs ih => simp [run_calls, call_once, ih]

/-- Claim C2: `init_config` and `silent` share the single `INIT_LOG` slot:
in any serialized sequence of such calls, only the first builds and installs
a configuration (exactly one body runs), every later call of either kind is a
no-op, and the installed configuration stays the first caller's build for the
rest of the process lifetime. -/
theorem C2_one_shot_initialization (rust_log : Option (List Char))
    (c : InitCall) (cs : List InitCall) :
    run_calls rust_log (⟨none⟩, 0) (c :: cs) =
      (⟨some (built_config rust_log c)⟩, 1) := by
  have h1 : call_once rust_log ⟨none⟩ c =
      (⟨some (built_config rust_log c)⟩, true) := rfl
  unfold run_calls
  rw [h1]
  simpa using run_calls_installed rust_log (built_config rust_log c) 1 cs

lemma create_loggers_eq_map (ds : List Directive) (a : List Char) :
    create_loggers ds a = ds.map fun d => ⟨d.name, d.level, false, [a]⟩ := by
  cases ds <;> simp [create_loggers]

/-- Claim C3: for both destinations and any directive list, the built
configuration has root level Info routed to its single named sink (`stdout`
for console, `requests` for file), and one non-additive logger per directive,
scoped to the directive's name at the directive's level and attached to that
sink; an empty directive list yields no per-module loggers. -/
theorem C3_config_shape (service_name file_path : List Char)
    (directives : List Directive) :
    (config_console_appender service_name directives).root =
      ⟨.Info, ["stdout".toList]⟩ ∧
    (config_console_appender service_name directives).appenders =
      [⟨"stdout".toList, .console (consolePattern service_name)⟩] ∧
    (config_console_appender service_name directives).loggers =
      directives.map (fun d => ⟨d.name, d.level, false, ["stdout".toList]⟩) ∧
    (config_file_appender file_path directives).root =
      ⟨.Info, ["requests".toList]⟩ ∧
    (config_file_appender file_path directives).appenders =
      [⟨"requests".toList, .file file_path filePattern⟩] ∧
    (config_file_appender file_path directives).loggers =
      directives.map (fun d => ⟨d.name, d.level, false, ["requests".toList]⟩) ∧
    (directives = [] →
      (config_console_appender service_name directives).loggers = [] ∧
      (config_file_appender file_path directives).loggers = []) := by
  refine ⟨rfl, rfl, ?_, rfl, rfl, ?_, ?_⟩
  · simp [config_console_appender, create_loggers_eq_map]
  · simp [config_file_appender, create_loggers_eq_map]
  · rintro rfl
    exact ⟨rfl, rfl⟩

/-- Witness for C3 at concrete inputs, including the empty directive list. -/
theorem C3_config_shape_witness :
    (config_console_appender "svc".toList []).loggers = [] ∧
    (config_file_appender "logs/svc.log".toList []).loggers = [] :=
  (C3_config_shape "svc".toList "logs/svc.log".toList []).2.2.2.2.2.2 rfl

/-- Claim C5: for the file destination with service name `s`, the live log
path is `logs/<s>.log`, and the rotation rename target at local time `t` is
`logs/<s>_YYYY-MM-DD_HH-MM-SS.log`, with zero-padded timestamp fields; two
concrete renderings check the format and the padding. -/
theorem C5_file_and_rotate_paths (service_name : List Char) (t : LocalTime) :
    log_name service_name =
      "logs/".toList ++ service_name ++ ".log".toList ∧
    log_rotate_name service_name t =
      "logs/".toList ++ service_name ++ time_stamp t ++ ".log".toList ∧
    time_stamp t =
      "_".toList ++ padDecimal 4 t.year ++ "-".toList ++
        padDecimal 2 t.month ++ "-".toList ++ padDecimal 2 t.day ++
        "_".toList ++ padDecimal 2 t.hour ++ "-".toList ++
        padDecimal 2 t.minute ++ "-".toList ++ padDecimal 2 t.second ∧
    log_rotate_name "cita".toList ⟨2026, 10, 12, 9, 5, 30⟩ =
      "logs/cita_2026-10-12_09-05-30.log".toList ∧
    log_rotate_name "cita".toList ⟨987, 1, 2, 3, 4, 5⟩ =
      "logs/cita_0987-01-02_03-04-05.log".toList :=
  ⟨rfl, rfl, rfl, by decide, by decide⟩

/-- Claim C6: when the rotation rename fails, a warning carrying the failure
reason is logged, the live configuration is left unchanged (no new
configuration is built or installed), and the waiter goes on to process the
remaining triggers — the run over the rest continues from the stepped state
rather than terminating. -/
theorem C6_rotation_failure_nonfatal (service_name : List Char)
    (directives : List Directive) (st : RotState) (e : List Char)
    (rest : List RenameOutcome) :
    (rotation_step service_name directives st (.err e)).config = st.config ∧
    (rotation_step service_name directives st (.err e)).warnings =
      st.warnings ++ [logrotateWarning e] ∧
    rotation_run service_name directives st (.err e :: rest) =
      rotation_run service_name directives
        (rotation_step service_name directives st (.err e)) rest :=
  ⟨rfl, rfl, rfl⟩

end CitaLogger
